import Mathlib

/-!
Verification of the replace-rules extension (rule-application engine,
command handlers and tree provider).  Pure definitions are translated
from `src/extension.ts` and the tree-provider source; the rule
application engine itself is not part of the source tree and is
modelled from the specification.  The host regular-expression engine
is abstracted as a parameter: the program only calls `compile` and a
substitution primitive on it.
-/

namespace ReplaceRules

/-- Configuration values that may be a single string or an array of
strings (the `string | string[]` union of the configuration shape). -/
inductive StrOrList where
  | scalar (s : String)
  | array (l : List String)
deriving DecidableEq, Repr

/-- Rule definition, after the configuration shape:
`find` required, `replace`/`flags`/`languages`/`literal` optional. -/
structure Rule where
  find : StrOrList
  replace : Option StrOrList := none
  flags : Option StrOrList := none
  languages : Option (List String) := none
  literal : Bool := false
deriving DecidableEq, Repr

/-- Join a scalar-or-array value into a single string: sequences are
joined with a newline separator, scalars are used as-is. -/
def joinSV : StrOrList → String
  | .scalar s => s
  | .array l => String.intercalate "\n" l

/-- Characters escaped when a rule is literal: the regex metacharacters. -/
def regexMetaChars : List Char :=
  ['.', '*', '+', '?', '^', '$', '\x7b', '\x7d', '(', ')', '|', '[', ']', '\\']

/-- Escape every regex metacharacter in a character list. -/
def escapeChars : List Char → List Char
  | [] => []
  | c :: rest =>
    if c ∈ regexMetaChars then '\\' :: c :: escapeChars rest
    else c :: escapeChars rest

/-- Escape every regex metacharacter of a string so that the compiled
pattern matches the string verbatim. -/
def escapeRegExp (s : String) : String :=
  String.mk (escapeChars s.data)

/-- Normalized form of a rule: one pattern, one replacement, one flags
string, plus the literal-substitution marker. -/
structure NormalizedRule where
  pattern : String
  replacement : String
  flags : String
  literalMode : Bool
deriving DecidableEq, Repr

/-- Modelled from the spec: `normalize(rule)` of the rule application
engine (the engine module is not in the source tree).  Sequences are
joined with newlines; absent `replace` becomes the empty string; absent
`flags` defaults to "gm"; a literal rule gets its joined find-string
escaped and the replacement marked for literal insertion. -/
def normalize (rule : Rule) : NormalizedRule :=
  let find := joinSV rule.find
  let repl := match rule.replace with
    | none => ""
    | some v => joinSV v
  let flags := match rule.flags with
    | none => "gm"
    | some v => joinSV v
  if rule.literal then
    ⟨escapeRegExp find, repl, flags, true⟩
  else
    ⟨find, repl, flags, false⟩

/-- Modelled from the spec: `applicable(rule, languageId)` of the rule
application engine.  True if `languages` is absent or empty, or the
language identifier is a member. -/
def applicable (rule : Rule) (languageId : String) : Bool :=
  match rule.languages with
  | none => true
  | some ls => ls.isEmpty || ls.contains languageId

/-- Errors surfaced by the rule application engine. -/
inductive EngineError where
  | invalidPattern (ruleName : String) (diagnostic : String)
  | unknownRule (ruleName : String)
  | notApplicable (ruleName : String)
deriving DecidableEq, Repr

/-- Modelled from the spec: user-facing message of an engine error; an
invalid-pattern message surfaces the rule name and the underlying
regex-engine diagnostic. -/
def errorMessage : EngineError → String
  | .invalidPattern name diag => "Error in rule '" ++ name ++ "': " ++ diag
  | .unknownRule name => "Unknown rule '" ++ name ++ "'"
  | .notApplicable name => "Rule '" ++ name ++ "' does not apply to this language"

/-- Interface of the host regular-expression engine: `compile` turns a
pattern and a flags string into a compiled regex or a diagnostic, and
`substitute` performs the global substitution pass of a compiled regex
over a text with a replacement (in literal mode the replacement is
inserted verbatim). -/
structure RegexEngine (ρ : Type) where
  compile : String → String → Except String ρ
  substitute : ρ → String → Bool → String → String

/-- Modelled from the spec: `applyRule(rule, text, languageId)` of the
rule application engine.  A directly invoked rule whose language
constraint excludes the document is rejected as not applicable; a
normalized find-pattern that does not compile yields an
invalid-pattern error; otherwise the substitution pass runs. -/
def applyRule {ρ : Type} (E : RegexEngine ρ) (name : String) (rule : Rule)
    (text languageId : String) : Except EngineError String :=
  if applicable rule languageId then
    let n := normalize rule
    match E.compile n.pattern n.flags with
    | .error diag => .error (.invalidPattern name diag)
    | .ok r => .ok (E.substitute r n.replacement n.literalMode text)
  else
    .error (.notApplicable name)

/-- Modelled from the spec: `applyRuleset` of the rule application
engine.  Rule names resolve against the store snapshot; an unresolved
name aborts the whole application; rules not applicable to the language
are skipped; each applied rule feeds its output to the next. -/
def applyRuleset {ρ : Type} (E : RegexEngine ρ) (store : String → Option Rule) :
    List String → String → String → Except EngineError String
  | [], text, _ => .ok text
  | n :: rest, text, languageId =>
    match store n with
    | none => .error (.unknownRule n)
    | some rule =>
      if applicable rule languageId then
        let nr := normalize rule
        match E.compile nr.pattern nr.flags with
        | .error diag => .error (.invalidPattern n diag)
        | .ok r =>
          applyRuleset E store rest (E.substitute r nr.replacement nr.literalMode text) languageId
      else
        applyRuleset E store rest text languageId

/-- Replace every occurrence of `pat` in the text by `repl`, scanning
left to right without overlap, the fuel bounding the number of steps.
This is the reference meaning of a literal (non-regex) global
substitution. -/
def literalReplaceAux (pat repl : List Char) : Nat → List Char → List Char
  | _, [] => []
  | 0, text => text
  | fuel + 1, c :: rest =>
    if pat ≠ [] ∧ pat.isPrefixOf (c :: rest) then
      repl ++ literalReplaceAux pat repl fuel ((c :: rest).drop pat.length)
    else
      c :: literalReplaceAux pat repl fuel rest

/-- Replace every literal occurrence of `pat` in `text` by `repl`. -/
def literalReplaceAll (pat repl text : String) : String :=
  String.mk (literalReplaceAux pat.data repl.data text.data.length text.data)

/-- Inverse of `escapeChars`: succeeds exactly on character lists in
which every metacharacter is backslash-escaped and nothing else is. -/
def unescapeChars : List Char → Option (List Char)
  | [] => some []
  | c :: rest =>
    if c = '\\' then
      match rest with
      | [] => none
      | d :: rest2 =>
        if d ∈ regexMetaChars then (unescapeChars rest2).map (d :: ·) else none
    else if c ∈ regexMetaChars then none
    else (unescapeChars rest).map (c :: ·)

/-- Recover the literal string a pattern was escaped from, when the
pattern is the escape of some string. -/
def unescapeRegExp (p : String) : Option String :=
  (unescapeChars p.data).map String.mk

/-- A host engine is literal-correct when substituting with a regex
compiled from an escaped string, in literal mode, replaces every
literal occurrence of that string and inserts the replacement
verbatim.  This is the behaviour the spec requires of the host regex
engine on escaped patterns. -/
def LiteralEngine {ρ : Type} (E : RegexEngine ρ) : Prop :=
  ∀ (s flags : String) (r : ρ) (repl text : String),
    E.compile (escapeRegExp s) flags = .ok r →
      E.substitute r repl true text = literalReplaceAll s repl text

/-- Concrete reference model of a host regex engine, used to exercise
the engine theorems on closed inputs: a compiled regex is its pattern
string, compilation rejects the one malformed test pattern, and
substitution interprets escaped-literal patterns. -/
def modelEngine : RegexEngine String where
  compile := fun p _ =>
    if p = "(unclosed" then .error "Invalid regular expression: missing )" else .ok p
  substitute := fun p repl _ text =>
    match unescapeRegExp p with
    | some s => literalReplaceAll s repl text
    | none => text

/-- Stored shape of a rule written by the create/edit handlers of
`extension.ts`: one scalar find, replace and flags string. -/
structure StoredRuleConfig where
  find : String
  replace : String
  flags : String
deriving DecidableEq, Repr

/-- Pure core of the `replacerules.createRule` handler
(`src/extension.ts`): each input-box result is `none` when dismissed;
a missing or empty rule name or find pattern aborts, a missing replace
pattern aborts (empty allowed), and the stored flags are the entered
flags unless missing or empty, in which case "gm". -/
def createRule : Option String → Option String → Option String → Option String →
    Option (String × StoredRuleConfig)
  | some rn, some fp, some rp, flags =>
    if rn = "" then none
    else if fp = "" then none
    else some (rn, ⟨fp, rp,
      match flags with
      | none => "gm"
      | some f => if f = "" then "gm" else f⟩)
  | _, _, _, _ => none

/-- Pure core of the `replacerules.editRule` handler
(`src/extension.ts`): a missing or empty find pattern aborts, a missing
replace pattern aborts, and the stored flags are the entered flags
unless missing or empty, in which case "gm". -/
def editRule : Option String → Option String → Option String → Option StoredRuleConfig
  | some fp, some rp, flags =>
    if fp = "" then none
    else some ⟨fp, rp,
      match flags with
      | none => "gm"
      | some f => if f = "" then "gm" else f⟩
  | _, _, _ => none

/-- Ruleset configuration object: its `rules` list may be missing in a
raw configuration value. -/
structure RulesetConfig where
  rules : Option (List String) := none
deriving DecidableEq, Repr

/-- Pure core of the `replacerules.addRuleToRuleset` handler
(`src/extension.ts`): a missing ruleset is created holding just the
rule; otherwise the rule key is appended to the ruleset's list unless
already a member, in which case nothing changes. -/
def addRuleToRuleset (rulesets : String → Option RulesetConfig)
    (rulesetName ruleKey : String) : String → Option RulesetConfig :=
  match rulesets rulesetName with
  | none => fun k => if k = rulesetName then some ⟨some [ruleKey]⟩ else rulesets k
  | some rc =>
    let rules := rc.rules.getD []
    if rules.contains ruleKey then rulesets
    else fun k => if k = rulesetName then some ⟨some (rules ++ [ruleKey])⟩ else rulesets k

/-- Usage record kept by the tree provider: last-invocation timestamp
and cumulative count. -/
structure RuleUsage where
  timestamp : Nat
  count : Nat
deriving DecidableEq, Repr

/-- Sort preference of the tree provider. -/
inductive SortMode where
  | lastUsed
  | alphabetical
deriving DecidableEq, Repr

/-- State of `ReplaceRulesProvider`: the in-memory usage map, its
persisted copy in global state, and the sort mode with its persisted
copy. -/
structure ProviderState where
  ruleUsageHistory : String → Option RuleUsage
  savedHistory : String → Option RuleUsage
  sortMode : SortMode
  savedSortMode : SortMode

/-- Translation of `ReplaceRulesProvider.updateRuleUsage`: the current
record (or a fresh one with count 0) has its count incremented and its
timestamp set to now, and the whole map is saved to global state. -/
def updateRuleUsage (s : ProviderState) (ruleKey : String) (now : Nat) : ProviderState :=
  let currentUsage := (s.ruleUsageHistory ruleKey).getD ⟨now, 0⟩
  let updatedUsage : RuleUsage := ⟨now, currentUsage.count + 1⟩
  let hist := fun k => if k = ruleKey then some updatedUsage else s.ruleUsageHistory k
  { s with ruleUsageHistory := hist, savedHistory := hist }

/-- Translation of `ReplaceRulesProvider.setSortMode`: stores the mode
and saves it to global state. -/
def setSortMode (s : ProviderState) (mode : SortMode) : ProviderState :=
  { s with sortMode := mode, savedSortMode := mode }

/-- Translation of `ReplaceRulesProvider.refresh`: only fires the
tree-change event, the provider state is untouched. -/
def refresh (s : ProviderState) : ProviderState := s

/-- Raw rule object as the tree provider reads it from configuration
(untyped access, the `find` field may be missing). -/
structure RawRuleConfig where
  find : Option StrOrList := none
deriving DecidableEq, Repr

/-- JavaScript truthiness of a `find` configuration value: absent is
falsy, an empty string is falsy, any array (empty included) is truthy. -/
def jsTruthyFind : Option StrOrList → Bool
  | none => false
  | some (.scalar s) => s != ""
  | some (.array _) => true

/-- Translation of the membership logic of
`ReplaceRulesProvider.getRules`: one tree entry per configured rule
whose `find` field is truthy (the provider then sorts the entries,
which does not change membership). -/
def getRuleKeys (rules : List (String × RawRuleConfig)) : List String :=
  (rules.filter fun kv => jsTruthyFind kv.2.find).map (·.1)

/-- Hexadecimal digit character for a value below 16. -/
def hexDigit (n : Nat) : Char :=
  if n < 10 then Char.ofNat (48 + n) else Char.ofNat (87 + n)

/-- JSON escape of one character, after the JSON string grammar. -/
def jsonEscapeChar (c : Char) : List Char :=
  if c = '"' then ['\\', '"']
  else if c = '\\' then ['\\', '\\']
  else if c = '\x08' then ['\\', 'b']
  else if c = '\x0c' then ['\\', 'f']
  else if c = '\n' then ['\\', 'n']
  else if c = '\r' then ['\\', 'r']
  else if c = '\t' then ['\\', 't']
  else if c.toNat < 32 then ['\\', 'u', '0', '0', hexDigit (c.toNat / 16), hexDigit (c.toNat % 16)]
  else [c]

/-- JSON serialization of a string, as `JSON.stringify` produces it. -/
def jsonStringify (s : String) : String :=
  String.mk ('"' :: ((s.data.map jsonEscapeChar).flatten ++ ['"']))

/-- Outcome of the stringify-regex command: nothing shown when the
input box was dismissed or empty, the compiler's error message on
failure, or the JSON-escaped pattern on success. -/
inductive StringifyOutcome where
  | noInput
  | errorShown (msg : String)
  | jsonShown (payload : String)
deriving DecidableEq, Repr

/-- Model of the JS startsWith check with a one-character needle: the
first character of the string equals it. -/
def jsStartsWith1 (s : String) (c : Char) : Bool :=
  s.data.head? == some c

/-- Model of the JS endsWith check with a one-character needle: the
last character of the string equals it. -/
def jsEndsWith1 (s : String) (c : Char) : Bool :=
  s.data.getLast? == some c

/-- Model of the JS slice(1, -1): remove the first and last character. -/
def jsSlice1Neg1 (s : String) : String :=
  String.mk (s.data.drop 1).dropLast

/-- Translation of the slash-stripping step of `stringifyRegex`
(`src/extension.ts`): one enclosing pair of slash delimiters is removed
exactly when the input both starts and ends with a slash. -/
def stripSlashes (input : String) : String :=
  if jsStartsWith1 input '/' && jsEndsWith1 input '/' then jsSlice1Neg1 input else input

/-- Compile-and-render step of `stringifyRegex`: the host compiler
yields either a diagnostic (shown as an error) or the source string of
the compiled pattern (what `toString` encloses in slashes), which is
JSON-escaped and shown. -/
def stringifyCore (compile : String → Except String String) (p : String) : StringifyOutcome :=
  match compile p with
  | .error msg => .errorShown msg
  | .ok src => .jsonShown (jsonStringify src)

/-- Translation of the `replacerules.stringifyRegex` command handler:
no output for a dismissed or empty input box, otherwise the input is
slash-stripped, compiled by the host engine and rendered. -/
def stringifyRegex (compile : String → Except String String) (input : Option String) :
    StringifyOutcome :=
  match input with
  | none => .noInput
  | some s => if s = "" then .noInput else stringifyCore compile (stripSlashes s)

/-- Claim-side reading of a present and non-empty `find` value: a
non-empty string or a non-empty array. -/
def findPresentNonEmpty : Option StrOrList → Bool
  | none => false
  | some (.scalar s) => s != ""
  | some (.array l) => !l.isEmpty

/-- Sample rule restricted to python documents. -/
def pyRule : Rule :=
  { find := .scalar "foo", replace := some (.scalar "X"), languages := some ["python"] }

/-- Sample unconstrained rule rewriting a to b. -/
def upRule : Rule :=
  { find := .scalar "a", replace := some (.scalar "b") }

/-- Sample literal rule whose find holds a metacharacter and whose
replacement holds capture-reference syntax. -/
def litRule : Rule :=
  { find := .scalar "a.c", replace := some (.scalar "[$1]"), literal := true }

/-- Sample rule with an unparseable pattern and a language constraint. -/
def badPyRule : Rule :=
  { find := .scalar "(unclosed", languages := some ["python"] }

/-- Sample rule with an unparseable pattern and no language constraint. -/
def badRule : Rule :=
  { find := .scalar "(unclosed" }

/-- Sample rule whose fields are all array-valued. -/
def arrRule : Rule :=
  { find := .array ["foo", "bar"], replace := some (.array ["X", "Y"]),
    flags := some (.array ["g"]), languages := none, literal := false }

/-- Sample store holding the python-only rule and the a-to-b rule. -/
def testStore : String → Option Rule := fun n =>
  if n = "py" then some pyRule
  else if n = "up" then some upRule
  else none

/-- Sample store holding the broken python-only rule. -/
def badPyStore : String → Option Rule := fun n =>
  if n = "badpy" then some badPyRule else none

/-- Sample store holding the unconstrained broken rule and the a-to-b rule. -/
def badStore : String → Option Rule := fun n =>
  if n = "bad" then some badRule
  else if n = "up" then some upRule
  else none

/-- Concrete model of the host compiler used by the stringify command:
rejects the one malformed test pattern, otherwise the source of the
compiled regex is the pattern itself. -/
def regexCompileModel : String → Except String String := fun p =>
  if p = "(bad" then .error "Unterminated group" else .ok p

/-- Sample provider state with no usage records. -/
def emptyProviderState : ProviderState :=
  { ruleUsageHistory := fun _ => none, savedHistory := fun _ => none,
    sortMode := .lastUsed, savedSortMode := .lastUsed }

/-- Sample ruleset map holding one ruleset with one member. -/
def sampleRulesets : String → Option RulesetConfig := fun k =>
  if k = "s" then some ⟨some ["a"]⟩ else none

/-- Unescaping undoes escaping on every character list. -/
theorem unescapeChars_escapeChars (l : List Char) : unescapeChars (escapeChars l) = some l := by
  induction l with
  | nil => rfl
  | cons c rest ih =>
    by_cases h : c ∈ regexMetaChars
    · simp [escapeChars, h, unescapeChars, ih]
    · have hc : c ≠ '\\' := by
        rintro rfl
        exact h (by decide)
      rw [escapeChars, if_neg h, unescapeChars.eq_def]
      dsimp only
      rw [if_neg hc, if_neg h, ih]
      rfl

/-- Unescaping undoes escaping on every string. -/
theorem unescapeRegExp_escapeRegExp (s : String) : unescapeRegExp (escapeRegExp s) = some s := by
  cases s with
  | mk data => simp [unescapeRegExp, escapeRegExp, unescapeChars_escapeChars]

/-- The concrete reference engine is literal-correct. -/
theorem modelEngine_literalEngine : LiteralEngine modelEngine := by
  intro s flags r repl text h
  by_cases hp : escapeRegExp s = "(unclosed"
  · simp [modelEngine, hp] at h
  · simp [modelEngine, hp] at h
    subst h
    simp [modelEngine, unescapeRegExp_escapeRegExp]

/-- Applying a ruleset over an appended name list chains the two parts:
the first part runs, and on success its output feeds the second part. -/
theorem applyRuleset_append {ρ : Type} (E : RegexEngine ρ) (store : String → Option Rule)
    (l1 l2 : List String) (text lang : String) :
    applyRuleset E store (l1 ++ l2) text lang =
      match applyRuleset E store l1 text lang with
      | .ok t => applyRuleset E store l2 t lang
      | .error e => .error e := by
  induction l1 generalizing text with
  | nil => rfl
  | cons n rest ih =>
    simp only [List.cons_append, applyRuleset]
    cases store n with
    | none => rfl
    | some rule =>
      dsimp only [List.append_eq]
      by_cases h : applicable rule lang
      · rw [if_pos h, if_pos h]
        cases E.compile (normalize rule).pattern (normalize rule).flags with
        | error d => rfl
        | ok r => exact ih _
      · rw [if_neg h, if_neg h]
        exact ih text

/-- Rule application depends on a rule only through its languages
constraint and its normalized form. -/
theorem applyRule_congr {ρ : Type} (E : RegexEngine ρ) (name : String) (r1 r2 : Rule)
    (text lang : String) (h1 : r1.languages = r2.languages) (h2 : normalize r1 = normalize r2) :
    applyRule E name r1 text lang = applyRule E name r2 text lang := by
  have happ : applicable r1 lang = applicable r2 lang := by
    unfold applicable
    rw [h1]
  unfold applyRule
  rw [happ, h2]

/-- C2: applying an empty ruleset, or a ruleset in which every member
resolves to a rule whose languages constraint excludes the language
identifier, returns the input text unchanged as a success, not an
error. -/
theorem applyRuleset_identity :
    (∀ (ρ : Type) (E : RegexEngine ρ) (store : String → Option Rule) (text lang : String),
        applyRuleset E store [] text lang = .ok text)
    ∧ (∀ (ρ : Type) (E : RegexEngine ρ) (store : String → Option Rule)
          (names : List String) (text lang : String),
        (∀ n ∈ names, ∃ r, store n = some r ∧ applicable r lang = false) →
          applyRuleset E store names text lang = .ok text) := by
  constructor
  · intro ρ E store text lang
    rfl
  · intro ρ E store names text lang h
    induction names with
    | nil => rfl
    | cons n rest ih =>
      obtain ⟨r, hr, hna⟩ := h n (List.mem_cons_self n rest)
      have hna' : ¬ applicable r lang = true := by
        rw [hna]
        exact Bool.false_ne_true
      rw [applyRuleset, hr]
      dsimp only
      rw [if_neg hna']
      exact ih fun m hm => h m (List.mem_cons_of_mem n hm)

/-- C2 witness: a singleton ruleset whose only member is a python-only
rule leaves a javascript document's text unchanged. -/
theorem applyRuleset_identity_witness :
    applyRuleset modelEngine testStore ["py"] "hello" "javascript" = .ok "hello" :=
  applyRuleset_identity.2 String modelEngine testStore ["py"] "hello" "javascript"
    (by
      intro n hn
      simp only [List.mem_singleton] at hn
      subst hn
      exact ⟨pyRule, rfl, by decide⟩)

/-- C5: a rule is applicable exactly when its languages constraint is
absent or empty or holds the language identifier; a directly invoked
inapplicable rule is rejected with a not-applicable error, an error
distinct from the invalid-pattern one; inside a ruleset an
inapplicable member is silently skipped, the remaining members running
as if it were absent. -/
theorem applicable_spec :
    (∀ (rule : Rule) (lang : String),
        applicable rule lang = true ↔
          (rule.languages = none ∨ rule.languages = some [] ∨
            ∃ ls, rule.languages = some ls ∧ lang ∈ ls))
    ∧ (∀ (name n d : String), EngineError.notApplicable name ≠ EngineError.invalidPattern n d)
    ∧ (∀ (ρ : Type) (E : RegexEngine ρ) (name : String) (rule : Rule) (text lang : String),
        applicable rule lang = false →
          applyRule E name rule text lang = .error (.notApplicable name))
    ∧ (∀ (ρ : Type) (E : RegexEngine ρ) (store : String → Option Rule) (n : String) (r : Rule)
          (rest : List String) (text lang : String),
        store n = some r → applicable r lang = false →
          applyRuleset E store (n :: rest) text lang = applyRuleset E store rest text lang) := by
  refine ⟨?_, ?_, ?_, ?_⟩
  · intro rule lang
    cases hls : rule.languages with
    | none => simp [applicable, hls]
    | some ls =>
      simp only [applicable, hls]
      cases ls with
      | nil => simp
      | cons a as =>
        simp [List.elem_iff]
  · intro name n d hcontra
    exact EngineError.noConfusion hcontra
  · intro ρ E name rule text lang h
    have h' : ¬ applicable rule lang = true := by
      rw [h]
      exact Bool.false_ne_true
    rw [applyRule, if_neg h']
  · intro ρ E store n r rest text lang hr hna
    have hna' : ¬ applicable r lang = true := by
      rw [hna]
      exact Bool.false_ne_true
    rw [applyRuleset, hr]
    dsimp only
    rw [if_neg hna']

/-- C5 witness: the python-only rule invoked directly on a javascript
document yields the not-applicable error, and inside a two-member
ruleset it is skipped while the other member still rewrites the text. -/
theorem applicable_spec_witness :
    applyRule modelEngine "py" pyRule "txt" "javascript" = .error (.notApplicable "py")
    ∧ applyRuleset modelEngine testStore ["py", "up"] "aa" "javascript" = .ok "bb" :=
  ⟨applicable_spec.2.2.1 String modelEngine "py" pyRule "txt" "javascript" (by decide),
   (applicable_spec.2.2.2 String modelEngine testStore "py" pyRule ["up"] "aa" "javascript"
      rfl (by decide)).trans rfl⟩

/-- C3: replacing an array-valued find, replace, or flags field by the
scalar string obtained by joining the array's elements with a newline
separator yields an observably identical applyRule result. -/
theorem array_scalar_equivalence :
    (∀ (ρ : Type) (E : RegexEngine ρ) (name : String) (rule : Rule) (l : List String)
        (text lang : String),
      rule.find = .array l →
        applyRule E name { rule with find := .scalar (String.intercalate "\n" l) } text lang
          = applyRule E name rule text lang)
    ∧ (∀ (ρ : Type) (E : RegexEngine ρ) (name : String) (rule : Rule) (l : List String)
        (text lang : String),
      rule.replace = some (.array l) →
        applyRule E name { rule with replace := some (.scalar (String.intercalate "\n" l)) }
            text lang
          = applyRule E name rule text lang)
    ∧ (∀ (ρ : Type) (E : RegexEngine ρ) (name : String) (rule : Rule) (l : List String)
        (text lang : String),
      rule.flags = some (.array l) →
        applyRule E name { rule with flags := some (.scalar (String.intercalate "\n" l)) }
            text lang
          = applyRule E name rule text lang) := by
  refine ⟨?_, ?_, ?_⟩ <;>
    (intro ρ E name rule l text lang h
     obtain ⟨f, r, fl, ls, lit⟩ := rule
     dsimp only at h
     subst h
     exact applyRule_congr E name _ _ text lang rfl rfl)

/-- C3 witness: for the rule whose three fields are arrays, each
single-field scalar replacement leaves the applyRule result unchanged. -/
theorem array_scalar_equivalence_witness :
    applyRule modelEngine "r" { arrRule with find := .scalar "foo\nbar" } "t" "any"
      = applyRule modelEngine "r" arrRule "t" "any"
    ∧ applyRule modelEngine "r" { arrRule with replace := some (.scalar "X\nY") } "t" "any"
      = applyRule modelEngine "r" arrRule "t" "any"
    ∧ applyRule modelEngine "r" { arrRule with flags := some (.scalar "g") } "t" "any"
      = applyRule modelEngine "r" arrRule "t" "any" :=
  ⟨array_scalar_equivalence.1 String modelEngine "r" arrRule ["foo", "bar"] "t" "any" rfl,
   array_scalar_equivalence.2.1 String modelEngine "r" arrRule ["X", "Y"] "t" "any" rfl,
   array_scalar_equivalence.2.2 String modelEngine "r" arrRule ["g"] "t" "any" rfl⟩

/-- C6: normalization defaults an absent flags field to "gm", and the
create-rule and edit-rule handlers store "gm" whenever the entered
flags value is empty or missing. -/
theorem default_flags_gm :
    (∀ (find : StrOrList) (repl : Option StrOrList) (langs : Option (List String)) (lit : Bool),
        (normalize { find := find, replace := repl, flags := none,
                     languages := langs, literal := lit }).flags = "gm")
    ∧ (∀ (rn fp rp : String) (out : String × StoredRuleConfig),
        createRule (some rn) (some fp) (some rp) (some "") = some out → out.2.flags = "gm")
    ∧ (∀ (rn fp rp : String) (out : String × StoredRuleConfig),
        createRule (some rn) (some fp) (some rp) none = some out → out.2.flags = "gm")
    ∧ (∀ (fp rp : String) (out : StoredRuleConfig),
        editRule (some fp) (some rp) (some "") = some out → out.flags = "gm")
    ∧ (∀ (fp rp : String) (out : StoredRuleConfig),
        editRule (some fp) (some rp) none = some out → out.flags = "gm") := by
  refine ⟨?_, ?_, ?_, ?_, ?_⟩
  · intro find repl langs lit
    cases lit <;> simp [normalize]
  · intro rn fp rp out h
    rw [createRule] at h
    by_cases h1 : rn = ""
    · rw [if_pos h1] at h
      exact absurd h (Option.noConfusion)
    · rw [if_neg h1] at h
      by_cases h2 : fp = ""
      · rw [if_pos h2] at h
        exact absurd h (Option.noConfusion)
      · rw [if_neg h2] at h
        simp only [Option.some.injEq] at h
        subst h
        rfl
  · intro rn fp rp out h
    rw [createRule] at h
    by_cases h1 : rn = ""
    · rw [if_pos h1] at h
      exact absurd h (Option.noConfusion)
    · rw [if_neg h1] at h
      by_cases h2 : fp = ""
      · rw [if_pos h2] at h
        exact absurd h (Option.noConfusion)
      · rw [if_neg h2] at h
        simp only [Option.some.injEq] at h
        subst h
        rfl
  · intro fp rp out h
    rw [editRule] at h
    by_cases h1 : fp = ""
    · rw [if_pos h1] at h
      exact absurd h (Option.noConfusion)
    · rw [if_neg h1] at h
      simp only [Option.some.injEq] at h
      subst h
      rfl
  · intro fp rp out h
    rw [editRule] at h
    by_cases h1 : fp = ""
    · rw [if_pos h1] at h
      exact absurd h (Option.noConfusion)
    · rw [if_neg h1] at h
      simp only [Option.some.injEq] at h
      subst h
      rfl

/-- C6 witness: a rule without flags normalizes to the "gm" flags, and
creating or editing a rule with an empty flags entry stores "gm". -/
theorem default_flags_gm_witness :
    (normalize { find := .scalar "foo", replace := none, flags := none,
                 languages := none, literal := false }).flags = "gm"
    ∧ createRule (some "r") (some "f") (some "") (some "") = some ("r", ⟨"f", "", "gm"⟩)
    ∧ (("r", ⟨"f", "", "gm"⟩) : String × StoredRuleConfig).2.flags = "gm"
    ∧ editRule (some "f") (some "") none = some ⟨"f", "", "gm"⟩
    ∧ (⟨"f", "", "gm"⟩ : StoredRuleConfig).flags = "gm" :=
  ⟨default_flags_gm.1 (.scalar "foo") none none false, rfl,
   default_flags_gm.2.1 "r" "f" "" ("r", ⟨"f", "", "gm"⟩) rfl, rfl,
   default_flags_gm.2.2.2.2 "f" "" ⟨"f", "", "gm"⟩ rfl⟩

/-- C1 (amended): for a rule applicable to the invocation's language
identifier whose normalized find-pattern fails to compile, applyRule
fails with an invalid-pattern error whose message carries the rule's
name and the engine diagnostic, producing no output text; and any
ruleset application that reaches that rule (its earlier members having
run successfully) fails with the same error. -/
theorem invalidPattern_aborts {ρ : Type} (E : RegexEngine ρ) (name : String) (rule : Rule)
    (text lang diag : String)
    (happ : applicable rule lang = true)
    (hc : E.compile (normalize rule).pattern (normalize rule).flags = .error diag) :
    applyRule E name rule text lang = .error (.invalidPattern name diag)
    ∧ (∃ a b, errorMessage (.invalidPattern name diag) = a ++ name ++ b ++ diag)
    ∧ ∀ (store : String → Option Rule) (pre post : List String) (t0 t1 : String),
        store name = some rule →
        applyRuleset E store pre t0 lang = .ok t1 →
        applyRuleset E store (pre ++ name :: post) t0 lang
          = .error (.invalidPattern name diag) := by
  refine ⟨?_, ⟨"Error in rule '", "': ", rfl⟩, ?_⟩
  · simp [applyRule, happ, hc]
  · intro store pre post t0 t1 hs hpre
    rw [applyRuleset_append E store pre (name :: post) t0 lang, hpre]
    simp [applyRuleset, hs, happ, hc]

/-- C1 counterexample: the broken python-only rule's pattern fails to
compile, yet applying it directly on a javascript document reports
not-applicable rather than invalid-pattern, and a ruleset holding it
succeeds with the text unchanged because the rule is skipped. -/
theorem invalidPattern_counterexample :
    modelEngine.compile (normalize badPyRule).pattern (normalize badPyRule).flags
        = .error "Invalid regular expression: missing )"
    ∧ applyRule modelEngine "badpy" badPyRule "txt" "javascript"
        = .error (.notApplicable "badpy")
    ∧ applyRuleset modelEngine badPyStore ["badpy"] "txt" "javascript" = .ok "txt" :=
  ⟨rfl, rfl, rfl⟩

/-- C1 witness: the unconstrained broken rule aborts both a direct
application and a ruleset application that reaches it after a
successful first member. -/
theorem invalidPattern_aborts_witness :
    applyRule modelEngine "bad" badRule "txt" "javascript"
        = .error (.invalidPattern "bad" "Invalid regular expression: missing )")
    ∧ applyRuleset modelEngine badStore (["up"] ++ "bad" :: []) "aa" "javascript"
        = .error (.invalidPattern "bad" "Invalid regular expression: missing )") :=
  ⟨(invalidPattern_aborts modelEngine "bad" badRule "txt" "javascript"
      "Invalid regular expression: missing )" rfl rfl).1,
   (invalidPattern_aborts modelEngine "bad" badRule "aa" "javascript"
      "Invalid regular expression: missing )" rfl rfl).2.2 badStore ["up"] [] "aa" "bb" rfl rfl⟩

/-- C4: under a literal-correct host engine, applying a literal rule
returns the text with every literal occurrence of the joined find
string replaced by the joined replace string, the replacement inserted
verbatim. -/
theorem literal_rule_replaces_literally {ρ : Type} (E : RegexEngine ρ) (hE : LiteralEngine E)
    (name : String) (rule : Rule) (text lang : String) (r : ρ)
    (hlit : rule.literal = true)
    (happ : applicable rule lang = true)
    (hc : E.compile (normalize rule).pattern (normalize rule).flags = .ok r) :
    applyRule E name rule text lang
      = .ok (literalReplaceAll (joinSV rule.find) ((rule.replace.map joinSV).getD "") text) := by
  have hpat : (normalize rule).pattern = escapeRegExp (joinSV rule.find) := by
    simp [normalize, hlit]
  have hrep : (normalize rule).replacement = (rule.replace.map joinSV).getD "" := by
    cases h : rule.replace <;> simp [normalize, hlit, h]
  have hmode : (normalize rule).literalMode = true := by
    simp [normalize, hlit]
  have hsub := hE (joinSV rule.find) (normalize rule).flags r (normalize rule).replacement text
    (by rw [← hpat]; exact hc)
  simp only [applyRule, happ, if_true, hc]
  rw [hmode, hsub, hrep]

/-- C4 witness: the literal rule with find "a.c" rewrites only literal
occurrences (the dot does not act as a wildcard, so "abc" is left
alone) and inserts the replacement "[$1]" verbatim. -/
theorem literal_rule_witness :
    applyRule modelEngine "lit" litRule "xa.c ya.c abc" "plaintext"
      = .ok "x[$1] y[$1] abc" :=
  (literal_rule_replaces_literally modelEngine modelEngine_literalEngine "lit" litRule
      "xa.c ya.c abc" "plaintext" "a\\.c" rfl rfl rfl).trans rfl

/-- C7: the stringify-regex command strips one enclosing pair of slash
delimiters exactly when the input both starts and ends with a slash,
then compiles the remainder; a failed compilation shows the compiler's
message and produces no JSON output, a successful one shows the
JSON-escaped source of the compiled pattern. -/
theorem stringifyRegex_spec :
    (∀ (compile : String → Except String String) (s : String),
        s ≠ "" → jsStartsWith1 s '/' = true → jsEndsWith1 s '/' = true →
          stringifyRegex compile (some s) = stringifyCore compile (jsSlice1Neg1 s))
    ∧ (∀ (compile : String → Except String String) (s : String),
        s ≠ "" → (jsStartsWith1 s '/' && jsEndsWith1 s '/') = false →
          stringifyRegex compile (some s) = stringifyCore compile s)
    ∧ (∀ (compile : String → Except String String) (p msg : String),
        compile p = .error msg → stringifyCore compile p = .errorShown msg)
    ∧ (∀ (compile : String → Except String String) (p src : String),
        compile p = .ok src → stringifyCore compile p = .jsonShown (jsonStringify src)) := by
  refine ⟨?_, ?_, ?_, ?_⟩
  · intro compile s hne h1 h2
    rw [stringifyRegex]
    rw [if_neg hne, stripSlashes, h1, h2]
    rfl
  · intro compile s hne h
    rw [stringifyRegex]
    rw [if_neg hne, stripSlashes, h]
    rfl
  · intro compile p msg h
    rw [stringifyCore, h]
  · intro compile p src h
    rw [stringifyCore, h]

/-- C7 witness: a slash-delimited entry is stripped and rendered as
JSON, and a malformed entry shows the compiler's message. -/
theorem stringifyRegex_witness :
    stringifyRegex regexCompileModel (some "/a+b/") = .jsonShown (jsonStringify "a+b")
    ∧ stringifyRegex regexCompileModel (some "(bad") = .errorShown "Unterminated group" :=
  ⟨(stringifyRegex_spec.1 regexCompileModel "/a+b/" (by decide) (by decide) (by decide)).trans
     (stringifyRegex_spec.2.2.2 regexCompileModel (jsSlice1Neg1 "/a+b/") "a+b" rfl),
   (stringifyRegex_spec.2.1 regexCompileModel "(bad" (by decide) (by decide)).trans
     (stringifyRegex_spec.2.2.1 regexCompileModel "(bad" "Unterminated group" rfl)⟩

/-- C8: updating a rule's usage creates a timestamp-and-count record
with count 1 on first invocation, increments the count by exactly one
and refreshes the timestamp on every later invocation; no provider
operation removes a record, and the whole map is saved to global state
after every update. -/
theorem updateRuleUsage_spec :
    (∀ (s : ProviderState) (key : String) (now : Nat),
        s.ruleUsageHistory key = none →
          (updateRuleUsage s key now).ruleUsageHistory key = some ⟨now, 1⟩)
    ∧ (∀ (s : ProviderState) (key : String) (now : Nat) (u : RuleUsage),
        s.ruleUsageHistory key = some u →
          (updateRuleUsage s key now).ruleUsageHistory key = some ⟨now, u.count + 1⟩)
    ∧ (∀ (s : ProviderState) (key : String) (now : Nat) (k : String) (u : RuleUsage),
        s.ruleUsageHistory k = some u →
          ∃ v, (updateRuleUsage s key now).ruleUsageHistory k = some v)
    ∧ (∀ (s : ProviderState) (mode : SortMode),
        (setSortMode s mode).ruleUsageHistory = s.ruleUsageHistory)
    ∧ (∀ (s : ProviderState), refresh s = s)
    ∧ (∀ (s : ProviderState) (key : String) (now : Nat),
        (updateRuleUsage s key now).savedHistory
          = (updateRuleUsage s key now).ruleUsageHistory) := by
  refine ⟨?_, ?_, ?_, ?_, ?_, ?_⟩
  · intro s key now h
    simp [updateRuleUsage, h]
  · intro s key now u h
    simp [updateRuleUsage, h]
  · intro s key now k u h
    by_cases hk : k = key
    · subst hk
      cases hu : s.ruleUsageHistory k with
      | none => exact ⟨⟨now, 1⟩, by simp [updateRuleUsage, hu]⟩
      | some u0 => exact ⟨⟨now, u0.count + 1⟩, by simp [updateRuleUsage, hu]⟩
    · exact ⟨u, by simp [updateRuleUsage, hk, h]⟩
  · intro s mode
    rfl
  · intro s
    rfl
  · intro s key now
    rfl

/-- C8 witness: from an empty history a first invocation stores count
1, a second stores count 2 with the newer timestamp, and the saved map
matches the live one. -/
theorem updateRuleUsage_witness :
    (updateRuleUsage emptyProviderState "r" 5).ruleUsageHistory "r" = some ⟨5, 1⟩
    ∧ (updateRuleUsage (updateRuleUsage emptyProviderState "r" 5) "r" 9).ruleUsageHistory "r"
        = some ⟨9, 2⟩
    ∧ (updateRuleUsage emptyProviderState "r" 5).savedHistory
        = (updateRuleUsage emptyProviderState "r" 5).ruleUsageHistory :=
  ⟨updateRuleUsage_spec.1 emptyProviderState "r" 5 rfl,
   updateRuleUsage_spec.2.1 (updateRuleUsage emptyProviderState "r" 5) "r" 9 ⟨5, 1⟩
     (updateRuleUsage_spec.1 emptyProviderState "r" 5 rfl),
   updateRuleUsage_spec.2.2.2.2.2 emptyProviderState "r" 5⟩

/-- C9 counterexample: a configured rule whose find is an empty array
is present but empty, yet it appears in the Rules category. -/
theorem getRuleKeys_counterexample :
    getRuleKeys [("r", ⟨some (.array [])⟩)] = ["r"]
    ∧ findPresentNonEmpty (some (.array [])) = false :=
  ⟨rfl, rfl⟩

/-- C9 (amended): the Rules category holds an entry for a configured
name exactly when its find field is present and truthy: a non-empty
string, or an array of any length, empty included. -/
theorem getRuleKeys_spec (rules : List (String × RawRuleConfig)) (name : String) :
    name ∈ getRuleKeys rules ↔
      ∃ rr, (name, rr) ∈ rules ∧
        ((∃ s, rr.find = some (.scalar s) ∧ s ≠ "") ∨ ∃ l, rr.find = some (.array l)) := by
  unfold getRuleKeys
  rw [List.mem_map]
  constructor
  · rintro ⟨⟨k, rr⟩, hmem, hk⟩
    rw [List.mem_filter] at hmem
    obtain ⟨hin, htruthy⟩ := hmem
    dsimp only at hk htruthy
    subst hk
    refine ⟨rr, hin, ?_⟩
    cases h : rr.find with
    | none =>
      rw [h] at htruthy
      simp [jsTruthyFind] at htruthy
    | some v =>
      cases v with
      | scalar s =>
        rw [h] at htruthy
        simp only [jsTruthyFind, bne_iff_ne, ne_eq] at htruthy
        exact Or.inl ⟨s, rfl, htruthy⟩
      | array l =>
        exact Or.inr ⟨l, rfl⟩
  · rintro ⟨rr, hmem, hcase⟩
    refine ⟨(name, rr), ?_, rfl⟩
    rw [List.mem_filter]
    refine ⟨hmem, ?_⟩
    rcases hcase with ⟨s, hf, hs⟩ | ⟨l, hf⟩
    · simp [jsTruthyFind, hf, hs]
    · simp [jsTruthyFind, hf]

/-- Adding to an absent ruleset creates it with the one rule. -/
theorem addRuleToRuleset_absent (rulesets : String → Option RulesetConfig)
    (name key : String) (h : rulesets name = none) :
    addRuleToRuleset rulesets name key
      = fun k => if k = name then some ⟨some [key]⟩ else rulesets k := by
  rw [addRuleToRuleset, h]

/-- Adding an existing member leaves the whole map unchanged. -/
theorem addRuleToRuleset_member (rulesets : String → Option RulesetConfig)
    (name key : String) (rc : RulesetConfig) (h : rulesets name = some rc)
    (hmem : (rc.rules.getD []).contains key = true) :
    addRuleToRuleset rulesets name key = rulesets := by
  rw [addRuleToRuleset, h]
  dsimp only
  rw [hmem, if_pos rfl]

/-- Adding a new member appends it at the end of the ruleset's list. -/
theorem addRuleToRuleset_newMember (rulesets : String → Option RulesetConfig)
    (name key : String) (rc : RulesetConfig) (h : rulesets name = some rc)
    (hmem : (rc.rules.getD []).contains key = false) :
    addRuleToRuleset rulesets name key
      = fun k => if k = name then some ⟨some (rc.rules.getD [] ++ [key])⟩
                 else rulesets k := by
  rw [addRuleToRuleset, h]
  dsimp only
  rw [hmem, if_neg Bool.false_ne_true]

/-- Membership fails exactly when contains is false. -/
theorem contains_false_of_not_mem (l : List String) (a : String) (h : a ∈ l) :
    l.contains a = true :=
  List.elem_iff.mpr h

/-- C10: adding a rule to a ruleset is idempotent: an existing member
leaves everything unchanged, a new member is appended exactly once at
the end, and a missing ruleset is created with the rule as its only
member. -/
theorem addRuleToRuleset_spec :
    (∀ (rulesets : String → Option RulesetConfig) (name key : String) (rc : RulesetConfig),
        rulesets name = some rc → (rc.rules.getD []).contains key = true →
          addRuleToRuleset rulesets name key = rulesets)
    ∧ (∀ (rulesets : String → Option RulesetConfig) (name key : String) (rc : RulesetConfig),
        rulesets name = some rc → (rc.rules.getD []).contains key = false →
          (addRuleToRuleset rulesets name key) name = some ⟨some (rc.rules.getD [] ++ [key])⟩
            ∧ (rc.rules.getD [] ++ [key]).count key = 1)
    ∧ (∀ (rulesets : String → Option RulesetConfig) (name key : String),
        rulesets name = none →
          (addRuleToRuleset rulesets name key) name = some ⟨some [key]⟩)
    ∧ (∀ (rulesets : String → Option RulesetConfig) (name key : String),
        addRuleToRuleset (addRuleToRuleset rulesets name key) name key
          = addRuleToRuleset rulesets name key) := by
  refine ⟨?_, ?_, ?_, ?_⟩
  · intro rulesets name key rc h hmem
    exact addRuleToRuleset_member rulesets name key rc h hmem
  · intro rulesets name key rc h hmem
    constructor
    · rw [addRuleToRuleset_newMember rulesets name key rc h hmem]
      dsimp only
      rw [if_pos rfl]
    · have hnotmem : key ∉ rc.rules.getD [] := by
        intro hk
        rw [contains_false_of_not_mem _ _ hk] at hmem
        exact Bool.noConfusion hmem
      rw [List.count_append]
      simp [List.count_eq_zero.mpr hnotmem]
  · intro rulesets name key h
    rw [addRuleToRuleset_absent rulesets name key h]
    dsimp only
    rw [if_pos rfl]
  · intro rulesets name key
    cases h : rulesets name with
    | none =>
      rw [addRuleToRuleset_absent rulesets name key h]
      have hm : (some (⟨some [key]⟩ : RulesetConfig)
          = (fun k => if k = name then some (⟨some [key]⟩ : RulesetConfig)
                      else rulesets k) name) := by
        dsimp only
        rw [if_pos rfl]
      have hc : (([key] : List String).contains key) = true :=
        contains_false_of_not_mem _ _ (List.mem_singleton.mpr rfl)
      rw [addRuleToRuleset_member _ name key ⟨some [key]⟩ hm.symm hc]
    | some rc =>
      cases hmem : (rc.rules.getD []).contains key with
      | true =>
        rw [addRuleToRuleset_member rulesets name key rc h hmem,
          addRuleToRuleset_member rulesets name key rc h hmem]
      | false =>
        rw [addRuleToRuleset_newMember rulesets name key rc h hmem]
        have hm : ((fun k => if k = name
              then some (⟨some (rc.rules.getD [] ++ [key])⟩ : RulesetConfig)
              else rulesets k) name
            = some ⟨some (rc.rules.getD [] ++ [key])⟩) := by
          dsimp only
          rw [if_pos rfl]
        have hc : ((rc.rules.getD [] ++ [key]).contains key) = true :=
          contains_false_of_not_mem _ _ (List.mem_append_right _ (List.mem_singleton.mpr rfl))
        rw [addRuleToRuleset_member _ name key ⟨some (rc.rules.getD [] ++ [key])⟩ hm hc]

/-- C10 witness: re-adding the member "a" changes nothing, adding "b"
appends it once, and adding to a missing ruleset creates it. -/
theorem addRuleToRuleset_witness :
    addRuleToRuleset sampleRulesets "s" "a" = sampleRulesets
    ∧ (addRuleToRuleset sampleRulesets "s" "b") "s" = some ⟨some ["a", "b"]⟩
    ∧ (addRuleToRuleset sampleRulesets "t" "c") "t" = some ⟨some ["c"]⟩
    ∧ addRuleToRuleset (addRuleToRuleset sampleRulesets "s" "b") "s" "b"
        = addRuleToRuleset sampleRulesets "s" "b" :=
  ⟨addRuleToRuleset_spec.1 sampleRulesets "s" "a" ⟨some ["a"]⟩ rfl (by decide),
   (addRuleToRuleset_spec.2.1 sampleRulesets "s" "b" ⟨some ["a"]⟩ rfl (by decide)).1,
   addRuleToRuleset_spec.2.2.1 sampleRulesets "t" "c" rfl,
   addRuleToRuleset_spec.2.2.2 sampleRulesets "s" "b"⟩

end ReplaceRules
